import Mathlib

/-!
Verification of the proxy-group membership-resolution and failure-recovery
core (`adapter/outboundgroup/groupbase.go`).

The Go code is embedded shallowly:

* A proxy is represented by its name (the only field the core inspects).
* A compiled filter regexp is represented by its matching function
  `String → Bool` (the code only ever asks whether `FindStringMatch`
  returns a match for a backend name).
* The per-provider parallel arrays `gb.proxies` / `gb.versions` are kept
  as lists; the CAS on a version slot always succeeds in this sequential
  model (a single call of `GetProxies` is modelled; concurrent interleaving
  is out of scope of the embedding).
* Goroutines spawned by `onDialFailed` / `healthCheck` are collapsed to
  synchronous state transitions; `time.Now()` becomes an explicit `now`
  argument in integer milliseconds, so the 5-second window constant is
  5000.
* `URLTest`'s concurrent probes are modelled by a probe oracle
  `Proxy → Option Nat`; the racy map writes become a sequential fold with
  insert-or-replace semantics.
-/

namespace Clash

/-- A backend proxy; the core only uses its `Name()`. -/
structure Proxy where
  name : String
deriving DecidableEq, Repr

/-- Provider vehicle classification (`types.Compatible` is the passthrough
kind that bypasses the version-gated cache). -/
inductive VehicleType where
  | File
  | HTTP
  | Compatible
deriving DecidableEq, Repr

/-- A proxy provider as seen by the group: its vehicle kind, its current
version counter, and its current backend list. -/
structure Provider where
  vehicleType : VehicleType
  version : Nat
  proxies : List Proxy
deriving DecidableEq, Repr

/-- A compiled filter regexp, represented by its matching function on
backend names. -/
abbrev Filter := String → Bool

/-- Whether a name matches at least one of the configured filters. -/
def matchesAny (fs : List Filter) (s : String) : Bool :=
  fs.any fun f => f s

/-- Boolean membership in a name set (the Go `proxiesSet` map). -/
def memStr : List String → String → Bool
  | [], _ => false
  | a :: as, s => s == a || memStr as s

/-- One iteration of the inner loop shared by both de-duplication passes of
`GetProxies`: if the guard accepts the proxy and its name is unseen, record
the name and append the proxy. -/
def step (g : Proxy → Bool) (ac : List String × List Proxy) (p : Proxy) :
    List String × List Proxy :=
  if g p then
    if memStr ac.1 p.name then ac
    else (p.name :: ac.1, ac.2 ++ [p])
  else ac

/-- The inner `for _, p := range proxies` loop of `GetProxies`. -/
def runPass (g : Proxy → Bool) (l : List Proxy) (ac : List String × List Proxy) :
    List String × List Proxy :=
  l.foldl (step g) ac

/-- The `for _, filterReg := range gb.filterRegs` loop of `GetProxies`:
filters in declaration order, first-seen-wins by name. -/
def matchedFold (fs : List Filter) (l : List Proxy) (ac : List String × List Proxy) :
    List String × List Proxy :=
  fs.foldl (fun ac f => runPass (fun p => f p.name) l ac) ac

/-- The per-provider filtered list computed at groupbase.go lines 98-110. -/
def filterProxies (fs : List Filter) (l : List Proxy) : List Proxy :=
  (matchedFold fs l ([], [])).2

/-- The second, cross-provider de-duplication pass of `GetProxies`
(lines 125-147): the matched pass followed by the unguarded
"add not matched proxies at the end" loop over the combined list. -/
def crossDedup (fs : List Filter) (l : List Proxy) : List Proxy :=
  (runPass (fun _ => true) l (matchedFold fs l ([], []))).2

/-- Group state relevant to `GetProxies`: the compiled filters, the
providers, and the parallel cached version / cached filtered-list arrays. -/
structure GroupBase where
  filterRegs : List Filter
  providers : List Provider
  versions : List Nat
  proxies : List (List Proxy)

/-- Refresh of one provider's cache slot inside `GetProxies`: a Compatible
provider always overwrites its slot with its raw list; otherwise the slot is
recomputed (through the filters) exactly when the cached version differs
from the provider's version, the CAS always succeeding in this sequential
model. -/
def updateSlot (fs : List Filter) (pd : Provider) (v : Nat) (cached : List Proxy) :
    Nat × List Proxy :=
  if pd.vehicleType = VehicleType.Compatible then
    (pd.version, pd.proxies)
  else if v ≠ pd.version then
    (pd.version, filterProxies fs pd.proxies)
  else
    (v, cached)

/-- The `for i, pd := range gb.providers` loop of the filtered branch of
`GetProxies`, acting on the parallel arrays slot by slot. -/
def updateSlots (gb : GroupBase) : List (Nat × List Proxy) :=
  (gb.providers.zip (gb.versions.zip gb.proxies)).map fun x =>
    updateSlot gb.filterRegs x.1 x.2.1 x.2.2

/-- The filtered branch of `GetProxies` (filters configured): refresh every
slot, concatenate, fall back on empty, and run the cross-provider pass when
more than one provider and more than one filter are configured. -/
def getProxiesFiltered (gb : GroupBase) (fallback : Proxy) : List Proxy × GroupBase :=
  let slots := updateSlots gb
  let gb' : GroupBase :=
    { gb with versions := slots.map Prod.fst, proxies := slots.map Prod.snd }
  let proxies := (slots.map Prod.snd).flatten
  if proxies.isEmpty then ([fallback], gb')
  else if gb.providers.length > 1 ∧ gb.filterRegs.length > 1 then
    (crossDedup gb.filterRegs proxies, gb')
  else (proxies, gb')

/-- `GroupBase.GetProxies` (lines 65-150), returning the resolved backend
sequence and the updated group state.  `fallback` is the process-wide
backend `tunnel.Proxies()["COMPATIBLE"]`. -/
def getProxies (gb : GroupBase) (fallback : Proxy) : List Proxy × GroupBase :=
  if gb.filterRegs.isEmpty then
    let proxies := (gb.providers.map Provider.proxies).flatten
    if proxies.isEmpty then ([fallback], gb) else (proxies, gb)
  else
    getProxiesFiltered gb fallback

/-- Failure-tracker state: `failedTimes`, `failedTime` (ms timestamp of the
first failure of the window) and the `failedTesting` single-flight flag. -/
structure FState where
  failedTimes : Nat
  failedTime : Int
  failedTesting : Bool
deriving DecidableEq, Repr

/-- Adapter kinds: the four non-routable sentinels checked by
`onDialFailed`, plus routable kinds. -/
inductive AdapterType where
  | Direct
  | Reject
  | Compatible
  | Pass
  | Shadowsocks
  | Vmess
  | Trojan
deriving DecidableEq, Repr

/-- `GroupBase.maxFailedTimes` (line 244). -/
def maxFailedTimes : Nat := 5

/-- `GroupBase.failedTimeoutInterval` (line 248), in milliseconds. -/
def failedTimeoutInterval : Int := 5 * 1000

/-- `GroupBase.failedIntervalTime` (line 234), in milliseconds. -/
def failedIntervalTime : Int := 5 * 1000

/-- Does the pattern occur at the head of the character list? -/
def begWith : List Char → List Char → Bool
  | [], _ => true
  | _ :: _, [] => false
  | p :: ps, c :: cs => p == c && begWith ps cs

/-- Does the pattern occur anywhere in the character list? -/
def hasSub (pat : List Char) : List Char → Bool
  | [] => begWith pat []
  | c :: cs => begWith pat (c :: cs) || hasSub pat cs

/-- `strings.Contains`. -/
def strContains (s pat : String) : Bool :=
  hasSub pat.toList s.toList

/-- Entry of `healthCheck` (lines 214-218): the single-flight gate; on
success the flag is set. -/
def healthCheckEnter (st : FState) : Option FState :=
  if st.failedTesting then none else some { st with failedTesting := true }

/-- Exit of `healthCheck` (lines 230-231): clear the flag and reset the
failure counter. -/
def healthCheckExit (st : FState) : FState :=
  { st with failedTesting := false, failedTimes := 0 }

/-- `GroupBase.healthCheck` (lines 213-232): returns the final state,
whether a sweep actually ran, and the providers whose `HealthCheck` was
invoked (all of them when the sweep runs, none otherwise). -/
def healthCheck (providers : List Provider) (st : FState) :
    FState × Bool × List Provider :=
  match healthCheckEnter st with
  | none => (st, false, [])
  | some st1 => (healthCheckExit st1, true, providers)

/-- `GroupBase.onDialFailed` (lines 180-211), with the spawned goroutine
collapsed to a synchronous transition at time `now`; the returned Bool
tells whether a health-check sweep ran. -/
def onDialFailed (providers : List Provider) (st : FState)
    (adapterType : AdapterType) (err : String) (now : Int) : FState × Bool :=
  if adapterType = AdapterType.Direct ∨ adapterType = AdapterType.Compatible ∨
      adapterType = AdapterType.Reject ∨ adapterType = AdapterType.Pass then
    (st, false)
  else if strContains err "connection refused" then
    ((healthCheck providers st).1, (healthCheck providers st).2.1)
  else
    let st1 : FState := { st with failedTimes := st.failedTimes + 1 }
    if st1.failedTimes = 1 then
      ({ st1 with failedTime := now }, false)
    else if now - st.failedTime > failedTimeoutInterval then
      ({ st1 with failedTimes := 0 }, false)
    else if st1.failedTimes ≥ maxFailedTimes then
      ((healthCheck providers st1).1, (healthCheck providers st1).2.1)
    else
      (st1, false)

/-- `GroupBase.onDialSuccess` (lines 238-242). -/
def onDialSuccess (st : FState) : FState :=
  if st.failedTesting then st else { st with failedTimes := 0 }

/-- Driver folding a sequence of dial-failure reports through
`onDialFailed`, counting how many health-check sweeps ran. -/
def runCalls (providers : List Provider) (st : FState) :
    List (AdapterType × String × Int) → FState × Nat
  | [] => (st, 0)
  | c :: rest =>
    ((runCalls providers (onDialFailed providers st c.1 c.2.1 c.2.2).1 rest).1,
      (if (onDialFailed providers st c.1 c.2.1 c.2.2).2 then 1 else 0) +
        (runCalls providers (onDialFailed providers st c.1 c.2.1 c.2.2).1 rest).2)

/-- Insert-or-replace into the result map of `URLTest`, keyed by name. -/
def insertAL (l : List (String × Nat)) (k : String) (v : Nat) :
    List (String × Nat) :=
  match l with
  | [] => [(k, v)]
  | (k1, v1) :: rest => if k1 = k then (k, v) :: rest else (k1, v1) :: insertAL rest k v

/-- The probe-collection loop of `URLTest`: successful probes are written
into the map, failed probes are skipped. -/
def collectDelays (probe : Proxy → Option Nat) (acc : List (String × Nat)) :
    List Proxy → List (String × Nat)
  | [] => acc
  | p :: rest =>
    match probe p with
    | some d => collectDelays probe (insertAL acc p.name d) rest
    | none => collectDelays probe acc rest

/-- `GroupBase.URLTest` (lines 152-178): probe every resolved backend, and
report an error exactly when the collected map is empty. -/
def urlTest (gb : GroupBase) (fallback : Proxy) (probe : Proxy → Option Nat) :
    Except String (List (String × Nat)) :=
  let mp := collectDelays probe [] (getProxies gb fallback).1
  if mp.isEmpty then Except.error "get delay: all proxies timeout"
  else Except.ok mp

/-- First-occurrence de-duplication by name of a proxy list, skipping names
already in `seen`.  Used to characterise the append-the-unmatched loop. -/
def dedupNew (seen : List String) : List Proxy → List Proxy
  | [] => []
  | p :: rest =>
    if memStr seen p.name then dedupNew seen rest
    else p :: dedupNew (p.name :: seen) rest

/-- Modelled from the spec (section 4.1, the cross-provider pass): list
first, iterating filters in declaration order with first-seen-wins
de-duplication by name, the backends matching each filter, then append the
first occurrence of every backend whose name matches no filter, in their
original relative order. -/
def crossSpec (fs : List Filter) (l : List Proxy) : List Proxy :=
  filterProxies fs l ++ dedupNew [] (l.filter fun p => !(matchesAny fs p.name))

/-- Invariant of both de-duplication loops: the accumulated proxies have
pairwise distinct names, and every accumulated name is in the seen set. -/
def InvP (ac : List String × List Proxy) : Prop :=
  (ac.2.map Proxy.name).Nodup ∧ ∀ p ∈ ac.2, memStr ac.1 p.name = true

/-- First-occurrence de-duplication of a name list, skipping `seen`. -/
def dedupStr (seen : List String) : List String → List String
  | [] => []
  | s :: rest =>
    if memStr seen s then dedupStr seen rest
    else s :: dedupStr (s :: seen) rest

/-- Names of the backends whose probe succeeded, in resolution order. -/
def succNames (probe : Proxy → Option Nat) (ps : List Proxy) : List String :=
  (ps.filter fun p => (probe p).isSome).map Proxy.name

/-- Keys of the `URLTest` result map, in insertion order. -/
def keysAL (l : List (String × Nat)) : List String :=
  l.map Prod.fst

/-- The process-wide fallback backend `tunnel.Proxies()["COMPATIBLE"]`. -/
def fbC : Proxy := ⟨"COMPATIBLE"⟩

/-- Two providers sharing backend name "x", a single filter matching "x":
the cross-provider pass does not run. -/
def gbC1 : GroupBase :=
  { filterRegs := [fun s => s == "x"]
    providers := [⟨VehicleType.File, 1, [⟨"x"⟩]⟩, ⟨VehicleType.HTTP, 1, [⟨"x"⟩]⟩]
    versions := [0, 0]
    proxies := [[], []] }

/-- One Compatible (passthrough) provider whose only backend "y" matches no
configured filter. -/
def gbC2 : GroupBase :=
  { filterRegs := [fun s => s == "x"]
    providers := [⟨VehicleType.Compatible, 1, [⟨"y"⟩]⟩]
    versions := [0]
    proxies := [[]] }

/-- Two providers and two filters: the cross-provider pass runs. -/
def gbC3 : GroupBase :=
  { filterRegs := [fun s => s == "x", fun s => s == "a"]
    providers := [⟨VehicleType.File, 1, [⟨"a"⟩, ⟨"x"⟩]⟩,
      ⟨VehicleType.HTTP, 1, [⟨"x"⟩, ⟨"b"⟩]⟩]
    versions := [0, 0]
    proxies := [[], []] }

/-- No filters, two providers sharing the backend name "x". -/
def gbC6 : GroupBase :=
  { filterRegs := []
    providers := [⟨VehicleType.File, 1, [⟨"x"⟩]⟩, ⟨VehicleType.HTTP, 1, [⟨"x"⟩]⟩]
    versions := [0, 0]
    proxies := [[], []] }

/-- A group with zero configured providers. -/
def gbC8 : GroupBase :=
  { filterRegs := [], providers := [], versions := [], proxies := [] }

/-- One Compatible provider with backend "y" and a filter matching only "x". -/
def gbC10 : GroupBase :=
  { filterRegs := [fun s => s == "x"]
    providers := [⟨VehicleType.Compatible, 1, [⟨"y"⟩]⟩]
    versions := [0]
    proxies := [[]] }

/-- Five routable dial failures evenly spread across 10 seconds. -/
def sched10 : List (AdapterType × String × Int) :=
  [(AdapterType.Shadowsocks, "dial timeout", 0),
   (AdapterType.Shadowsocks, "dial timeout", 2500),
   (AdapterType.Shadowsocks, "dial timeout", 5000),
   (AdapterType.Shadowsocks, "dial timeout", 7500),
   (AdapterType.Shadowsocks, "dial timeout", 10000)]

section Lemmas

theorem bool_eq_false {b : Bool} (h : ¬b = true) : b = false := by
  cases b
  · rfl
  · exact absurd rfl h

theorem memStr_iff (l : List String) (s : String) : memStr l s = true ↔ s ∈ l := by
  induction l with
  | nil => simp [memStr]
  | cons a as ih => simp [memStr, ih, Or.comm]

theorem dedupNew_nil (seen : List String) : dedupNew seen [] = [] := rfl

theorem dedupNew_cons (seen : List String) (p : Proxy) (rest : List Proxy) :
    dedupNew seen (p :: rest) =
      if memStr seen p.name then dedupNew seen rest
      else p :: dedupNew (p.name :: seen) rest := rfl

theorem runPass_nil (g : Proxy → Bool) (ac : List String × List Proxy) :
    runPass g [] ac = ac := rfl

theorem runPass_cons (g : Proxy → Bool) (p : Proxy) (l : List Proxy)
    (ac : List String × List Proxy) :
    runPass g (p :: l) ac = runPass g l (step g ac p) := rfl

theorem matchedFold_nil (l : List Proxy) (ac : List String × List Proxy) :
    matchedFold [] l ac = ac := rfl

theorem matchedFold_cons (f : Filter) (fs : List Filter) (l : List Proxy)
    (ac : List String × List Proxy) :
    matchedFold (f :: fs) l ac = matchedFold fs l (runPass (fun p => f p.name) l ac) := rfl

theorem runPass_seen (g : Proxy → Bool) (s : String) :
    ∀ (l : List Proxy) (ac : List String × List Proxy),
      (memStr (runPass g l ac).1 s = true ↔
        memStr ac.1 s = true ∨ ∃ p ∈ l, g p = true ∧ p.name = s) := by
  intro l
  induction l with
  | nil => intro ac; simp [runPass]
  | cons p rest ih =>
    intro ac
    rw [runPass_cons, ih]
    by_cases hg : g p = true
    · by_cases hc : memStr ac.1 p.name = true
      · simp only [step, hg, if_true, hc]
        constructor
        · rintro (h | ⟨q, hq, hgq, hname⟩)
          · exact Or.inl h
          · exact Or.inr ⟨q, List.mem_cons_of_mem _ hq, hgq, hname⟩
        · rintro (h | ⟨q, hq, hgq, hname⟩)
          · exact Or.inl h
          · rcases List.mem_cons.1 hq with rfl | hq'
            · exact Or.inl (hname ▸ hc)
            · exact Or.inr ⟨q, hq', hgq, hname⟩
      · simp only [step, hg, if_true, hc, if_false, memStr, Bool.or_eq_true, beq_iff_eq]
        constructor
        · rintro (⟨h | h⟩ | ⟨q, hq, hgq, hname⟩)
          · exact Or.inr ⟨p, List.mem_cons_self _ _, hg, h.symm⟩
          · exact Or.inl h
          · exact Or.inr ⟨q, List.mem_cons_of_mem _ hq, hgq, hname⟩
        · rintro (h | ⟨q, hq, hgq, hname⟩)
          · exact Or.inl (Or.inr h)
          · rcases List.mem_cons.1 hq with rfl | hq'
            · exact Or.inl (Or.inl hname.symm)
            · exact Or.inr ⟨q, hq', hgq, hname⟩
    · simp only [step, hg, if_false]
      constructor
      · rintro (h | ⟨q, hq, hgq, hname⟩)
        · exact Or.inl h
        · exact Or.inr ⟨q, List.mem_cons_of_mem _ hq, hgq, hname⟩
      · rintro (h | ⟨q, hq, hgq, hname⟩)
        · exact Or.inl h
        · rcases List.mem_cons.1 hq with rfl | hq'
          · exact absurd hgq hg
          · exact Or.inr ⟨q, hq', hgq, hname⟩

theorem runPass_mem (g : Proxy → Bool) :
    ∀ (l : List Proxy) (ac : List String × List Proxy) (q : Proxy),
      q ∈ (runPass g l ac).2 → q ∈ ac.2 ∨ (q ∈ l ∧ g q = true) := by
  intro l
  induction l with
  | nil => intro ac q h; exact Or.inl h
  | cons p rest ih =>
    intro ac q h
    rw [runPass_cons] at h
    rcases ih (step g ac p) q h with h' | ⟨hq, hgq⟩
    · by_cases hg : g p = true
      · by_cases hc : memStr ac.1 p.name = true
        · simp only [step, hg, if_true, hc] at h'
          exact Or.inl h'
        · simp only [step, hg, if_true, hc, if_false] at h'
          rcases List.mem_append.1 h' with h'' | h''
          · exact Or.inl h''
          · rcases List.mem_singleton.1 h'' with rfl
            exact Or.inr ⟨List.mem_cons_self _ _, hg⟩
      · simp only [step, hg, if_false] at h'
        exact Or.inl h'
    · exact Or.inr ⟨List.mem_cons_of_mem _ hq, hgq⟩

theorem runPass_true_snd :
    ∀ (l : List Proxy) (seen : List String) (acc : List Proxy),
      (runPass (fun _ => true) l (seen, acc)).2 = acc ++ dedupNew seen l := by
  intro l
  induction l with
  | nil => intro seen acc; simp [runPass, dedupNew]
  | cons p rest ih =>
    intro seen acc
    rw [runPass_cons]
    by_cases hc : memStr seen p.name = true
    · have hstep : step (fun _ => true) (seen, acc) p = (seen, acc) := by
        simp [step, hc]
      rw [hstep, ih seen acc, dedupNew_cons, if_pos hc]
    · have hstep : step (fun _ => true) (seen, acc) p = (p.name :: seen, acc ++ [p]) := by
        simp [step, hc]
      rw [hstep, ih (p.name :: seen) (acc ++ [p]), dedupNew_cons, if_neg hc,
        List.append_assoc]
      rfl

theorem step_inv (g : Proxy → Bool) (ac : List String × List Proxy) (p : Proxy)
    (h : InvP ac) : InvP (step g ac p) := by
  by_cases hg : g p = true
  · by_cases hc : memStr ac.1 p.name = true
    · have hstep : step g ac p = ac := by simp [step, hg, hc]
      rw [hstep]; exact h
    · have hstep : step g ac p = (p.name :: ac.1, ac.2 ++ [p]) := by
        simp [step, hg, hc]
      rw [hstep]
      refine ⟨?_, ?_⟩
      · show ((ac.2 ++ [p]).map Proxy.name).Nodup
        rw [List.map_append, List.map_cons, List.map_nil, List.nodup_append]
        refine ⟨h.1, List.nodup_singleton _, ?_⟩
        intro x hx hx'
        rcases List.mem_singleton.1 hx' with rfl
        rcases List.mem_map.1 hx with ⟨q, hq, hqn⟩
        have : memStr ac.1 p.name = true := hqn ▸ h.2 q hq
        exact hc this
      · intro q hq
        have hq' : q ∈ ac.2 ++ [p] := hq
        show memStr (p.name :: ac.1) q.name = true
        rcases List.mem_append.1 hq' with h' | h'
        · simp [memStr, h.2 q h']
        · rcases List.mem_singleton.1 h' with rfl
          simp [memStr]
  · have hstep : step g ac p = ac := by simp [step, hg]
    rw [hstep]; exact h

theorem runPass_inv (g : Proxy → Bool) :
    ∀ (l : List Proxy) (ac : List String × List Proxy), InvP ac → InvP (runPass g l ac) := by
  intro l
  induction l with
  | nil => intro ac h; exact h
  | cons p rest ih =>
    intro ac h
    rw [runPass_cons]
    exact ih _ (step_inv g ac p h)

theorem matchedFold_inv :
    ∀ (fs : List Filter) (l : List Proxy) (ac : List String × List Proxy),
      InvP ac → InvP (matchedFold fs l ac) := by
  intro fs
  induction fs with
  | nil => intro l ac h; exact h
  | cons f fs ih =>
    intro l ac h
    rw [matchedFold_cons]
    exact ih l _ (runPass_inv _ l ac h)

theorem crossDedup_nodup (fs : List Filter) (l : List Proxy) :
    ((crossDedup fs l).map Proxy.name).Nodup := by
  have h0 : InvP (([], []) : List String × List Proxy) := by
    constructor
    · simp
    · intro p hp; simp at hp
  have h1 : InvP (matchedFold fs l ([], [])) := matchedFold_inv fs l _ h0
  have h2 : InvP (runPass (fun _ => true) l (matchedFold fs l ([], []))) :=
    runPass_inv _ l _ h1
  exact h2.1

theorem matchedFold_seen (s : String) :
    ∀ (fs : List Filter) (l : List Proxy) (ac : List String × List Proxy),
      (memStr (matchedFold fs l ac).1 s = true ↔
        memStr ac.1 s = true ∨ ∃ f ∈ fs, ∃ p ∈ l, f p.name = true ∧ p.name = s) := by
  intro fs
  induction fs with
  | nil => intro l ac; simp [matchedFold]
  | cons f fs ih =>
    intro l ac
    rw [matchedFold_cons, ih, runPass_seen]
    constructor
    · rintro (⟨h | ⟨p, hp, hgp, hname⟩⟩ | ⟨f', hf', p, hp, hfp, hname⟩)
      · exact Or.inl h
      · exact Or.inr ⟨f, List.mem_cons_self _ _, p, hp, hgp, hname⟩
      · exact Or.inr ⟨f', List.mem_cons_of_mem _ hf', p, hp, hfp, hname⟩
    · rintro (h | ⟨f', hf', p, hp, hfp, hname⟩)
      · exact Or.inl (Or.inl h)
      · rcases List.mem_cons.1 hf' with rfl | hf''
        · exact Or.inl (Or.inr ⟨p, hp, hfp, hname⟩)
        · exact Or.inr ⟨f', hf'', p, hp, hfp, hname⟩

theorem matchedFold_mem :
    ∀ (fs : List Filter) (l : List Proxy) (ac : List String × List Proxy) (q : Proxy),
      q ∈ (matchedFold fs l ac).2 → q ∈ ac.2 ∨ (q ∈ l ∧ matchesAny fs q.name = true) := by
  intro fs
  induction fs with
  | nil => intro l ac q h; exact Or.inl h
  | cons f fs ih =>
    intro l ac q h
    rw [matchedFold_cons] at h
    rcases ih l _ q h with h' | ⟨hq, hm⟩
    · rcases runPass_mem _ l ac q h' with h'' | ⟨hq, hg⟩
      · exact Or.inl h''
      · refine Or.inr ⟨hq, ?_⟩
        simp [matchesAny, List.any_cons] at hg ⊢
        exact Or.inl hg
    · refine Or.inr ⟨hq, ?_⟩
      simp [matchesAny, List.any_cons] at hm ⊢
      exact Or.inr hm

theorem filterProxies_matches (fs : List Filter) (l : List Proxy) :
    ∀ q ∈ filterProxies fs l, matchesAny fs q.name = true := by
  intro q hq
  rcases matchedFold_mem fs l ([], []) q hq with h | ⟨_, hm⟩
  · simp at h
  · exact hm

theorem filterProxies_subset (fs : List Filter) (l : List Proxy) :
    ∀ q ∈ filterProxies fs l, q ∈ l := by
  intro q hq
  rcases matchedFold_mem fs l ([], []) q hq with h | ⟨hl, _⟩
  · simp at h
  · exact hl

theorem dedupNew_filter (c : String → Bool) :
    ∀ (l : List Proxy) (s0 s1 : List String),
      (∀ p ∈ l, memStr s0 p.name = (c p.name || memStr s1 p.name)) →
      dedupNew s0 l = dedupNew s1 (l.filter fun p => !(c p.name)) := by
  intro l
  induction l with
  | nil => intro s0 s1 _; simp [dedupNew]
  | cons p rest ih =>
    intro s0 s1 h
    have hp := h p (List.mem_cons_self _ _)
    have hrest : ∀ q ∈ rest, memStr s0 q.name = (c q.name || memStr s1 q.name) :=
      fun q hq => h q (List.mem_cons_of_mem _ hq)
    by_cases hcp : c p.name = true
    · have hmem : memStr s0 p.name = true := by rw [hp, hcp]; rfl
      have hfil : (p :: rest).filter (fun p => !(c p.name)) =
          rest.filter (fun p => !(c p.name)) := by
        simp [List.filter_cons, hcp]
      rw [dedupNew_cons, if_pos hmem, hfil]
      exact ih s0 s1 hrest
    · have hcp' : c p.name = false := bool_eq_false hcp
      have hp' : memStr s0 p.name = memStr s1 p.name := by
        rw [hp, hcp']; simp
      have hfil : (p :: rest).filter (fun p => !(c p.name)) =
          p :: rest.filter (fun p => !(c p.name)) := by
        simp [List.filter_cons, hcp']
      rw [hfil]
      by_cases hm : memStr s1 p.name = true
      · rw [dedupNew_cons, if_pos (hp'.trans hm), dedupNew_cons, if_pos hm]
        exact ih s0 s1 hrest
      · rw [dedupNew_cons, if_neg (by rw [hp']; exact hm), dedupNew_cons, if_neg hm]
        congr 1
        apply ih
        intro q hq
        by_cases hqe : (q.name == p.name) = true
        · have hqn : q.name = p.name := beq_iff_eq.1 hqe
          simp [memStr, hqe, hqn, hcp']
        · have hqe' : (q.name == p.name) = false := bool_eq_false hqe
          simp [memStr, hqe', hrest q hq]

theorem matchedFold_seen_eq_matchesAny (fs : List Filter) (l : List Proxy) :
    ∀ p ∈ l, memStr (matchedFold fs l ([], [])).1 p.name =
      (matchesAny fs p.name || memStr [] p.name) := by
  intro p hp
  simp only [memStr, Bool.or_false]
  by_cases hma : matchesAny fs p.name = true
  · rw [hma]
    rcases List.any_eq_true.1 hma with ⟨f, hf, hfp⟩
    exact (matchedFold_seen p.name fs l ([], [])).2 (Or.inr ⟨f, hf, p, hp, hfp, rfl⟩)
  · have hma' : matchesAny fs p.name = false := bool_eq_false hma
    rw [hma']
    by_cases hms : memStr (matchedFold fs l ([], [])).1 p.name = true
    · rcases (matchedFold_seen p.name fs l ([], [])).1 hms with h | ⟨f, hf, q, hq, hfq, hname⟩
      · simp [memStr] at h
      · exfalso
        apply hma
        exact List.any_eq_true.2 ⟨f, hf, hname ▸ hfq⟩
    · exact bool_eq_false hms

theorem crossDedup_eq_crossSpec (fs : List Filter) (l : List Proxy) :
    crossDedup fs l = crossSpec fs l := by
  unfold crossDedup crossSpec filterProxies
  have h1 := runPass_true_snd l (matchedFold fs l ([], [])).1 (matchedFold fs l ([], [])).2
  have h2 : ((matchedFold fs l ([], [])).1, (matchedFold fs l ([], [])).2) =
      matchedFold fs l ([], []) := rfl
  rw [h2] at h1
  rw [h1]
  congr 1
  exact dedupNew_filter (fun s => matchesAny fs s) l _ []
    (matchedFold_seen_eq_matchesAny fs l)

theorem getProxies_of_filters (gb : GroupBase) (fallback : Proxy)
    (hf : gb.filterRegs ≠ []) :
    getProxies gb fallback = getProxiesFiltered gb fallback := by
  have h : gb.filterRegs.isEmpty = false := by
    cases hfr : gb.filterRegs with
    | nil => exact absurd hfr hf
    | cons a l => rfl
  simp [getProxies, h]

theorem getProxiesFiltered_empty (gb : GroupBase) (fallback : Proxy)
    (he : ((updateSlots gb).map Prod.snd).flatten = []) :
    (getProxiesFiltered gb fallback).1 = [fallback] := by
  simp only [getProxiesFiltered, he]
  rfl

theorem isEmpty_false_of_ne_nil {α : Type} {l : List α} (h : l ≠ []) :
    l.isEmpty = false := by
  cases hl : l with
  | nil => exact absurd hl h
  | cons a t => rfl

theorem getProxiesFiltered_cross (gb : GroupBase) (fallback : Proxy)
    (he : ((updateSlots gb).map Prod.snd).flatten ≠ [])
    (hc : gb.providers.length > 1 ∧ gb.filterRegs.length > 1) :
    (getProxiesFiltered gb fallback).1 =
      crossDedup gb.filterRegs (((updateSlots gb).map Prod.snd).flatten) := by
  simp only [getProxiesFiltered, isEmpty_false_of_ne_nil he]
  simp [hc]

theorem getProxiesFiltered_nocross (gb : GroupBase) (fallback : Proxy)
    (he : ((updateSlots gb).map Prod.snd).flatten ≠ [])
    (hc : ¬(gb.providers.length > 1 ∧ gb.filterRegs.length > 1)) :
    (getProxiesFiltered gb fallback).1 = ((updateSlots gb).map Prod.snd).flatten := by
  simp only [getProxiesFiltered, isEmpty_false_of_ne_nil he]
  simp [hc]

theorem getProxiesFiltered_state (gb : GroupBase) (fallback : Proxy) :
    (getProxiesFiltered gb fallback).2 =
      { gb with versions := (updateSlots gb).map Prod.fst,
                proxies := (updateSlots gb).map Prod.snd } := by
  by_cases he : (((updateSlots gb).map Prod.snd).flatten).isEmpty = true
  · simp only [getProxiesFiltered, he]
    rfl
  · have he' : (((updateSlots gb).map Prod.snd).flatten).isEmpty = false := bool_eq_false he
    by_cases hc : gb.providers.length > 1 ∧ gb.filterRegs.length > 1
    · simp only [getProxiesFiltered, he']
      simp [hc]
    · simp only [getProxiesFiltered, he']
      simp [hc]

theorem updateSlots_matches (gb : GroupBase)
    (hnc : ∀ pd ∈ gb.providers, pd.vehicleType ≠ VehicleType.Compatible)
    (hcache : ∀ l ∈ gb.proxies, ∀ p ∈ l, matchesAny gb.filterRegs p.name = true) :
    ∀ p ∈ ((updateSlots gb).map Prod.snd).flatten,
      matchesAny gb.filterRegs p.name = true := by
  intro p hp
  rcases List.mem_flatten.1 hp with ⟨l, hl, hpl⟩
  rcases List.mem_map.1 hl with ⟨slot, hslot, rfl⟩
  rcases List.mem_map.1 hslot with ⟨x, hx, rfl⟩
  have hxp : x.1 ∈ gb.providers := (List.of_mem_zip hx).1
  have hx2 : x.2 ∈ gb.versions.zip gb.proxies := (List.of_mem_zip hx).2
  have hcached : x.2.2 ∈ gb.proxies := (List.of_mem_zip hx2).2
  by_cases hcompat : x.1.vehicleType = VehicleType.Compatible
  · exact absurd hcompat (hnc x.1 hxp)
  · by_cases hv : x.2.1 ≠ x.1.version
    · have hup : updateSlot gb.filterRegs x.1 x.2.1 x.2.2 =
          (x.1.version, filterProxies gb.filterRegs x.1.proxies) := by
        simp [updateSlot, hcompat, hv]
      rw [hup] at hpl
      exact filterProxies_matches _ _ p hpl
    · have hup : updateSlot gb.filterRegs x.1 x.2.1 x.2.2 = (x.2.1, x.2.2) := by
        simp [updateSlot, hcompat, hv]
      rw [hup] at hpl
      exact hcache x.2.2 hcached p hpl

theorem crossDedup_subset (fs : List Filter) (l : List Proxy) :
    ∀ p ∈ crossDedup fs l, p ∈ l := by
  intro p hp
  simp only [crossDedup] at hp
  rcases runPass_mem _ _ _ p hp with h' | ⟨hl, _⟩
  · rcases matchedFold_mem _ _ _ p h' with h'' | ⟨hl, _⟩
    · simp at h''
    · exact hl
  · exact hl

theorem onDialFailed_refused (ps : List Provider) (st : FState) (k : AdapterType)
    (e : String) (now : Int)
    (hk : ¬(k = AdapterType.Direct ∨ k = AdapterType.Compatible ∨
        k = AdapterType.Reject ∨ k = AdapterType.Pass))
    (he : strContains e "connection refused" = true) :
    onDialFailed ps st k e now = ((healthCheck ps st).1, (healthCheck ps st).2.1) := by
  simp [onDialFailed, hk, he]

theorem onDialFailed_first (ps : List Provider) (st : FState) (k : AdapterType)
    (e : String) (now : Int)
    (hk : ¬(k = AdapterType.Direct ∨ k = AdapterType.Compatible ∨
        k = AdapterType.Reject ∨ k = AdapterType.Pass))
    (he : strContains e "connection refused" = false)
    (h0 : st.failedTimes = 0) :
    onDialFailed ps st k e now = ({ st with failedTimes := 1, failedTime := now }, false) := by
  simp [onDialFailed, hk, he, h0]

theorem onDialFailed_acc (ps : List Provider) (st : FState) (k : AdapterType)
    (e : String) (now : Int)
    (hk : ¬(k = AdapterType.Direct ∨ k = AdapterType.Compatible ∨
        k = AdapterType.Reject ∨ k = AdapterType.Pass))
    (he : strContains e "connection refused" = false)
    (h1 : st.failedTimes ≠ 0)
    (hw : now - st.failedTime ≤ failedTimeoutInterval)
    (hlt : st.failedTimes + 1 < maxFailedTimes) :
    onDialFailed ps st k e now = ({ st with failedTimes := st.failedTimes + 1 }, false) := by
  have hw' : ¬(now - st.failedTime > failedTimeoutInterval) := not_lt.2 hw
  have hlt' : ¬(st.failedTimes + 1 ≥ maxFailedTimes) := Nat.not_le.2 hlt
  simp [onDialFailed, hk, he, h1, hw', hlt']

theorem onDialFailed_reset (ps : List Provider) (st : FState) (k : AdapterType)
    (e : String) (now : Int)
    (hk : ¬(k = AdapterType.Direct ∨ k = AdapterType.Compatible ∨
        k = AdapterType.Reject ∨ k = AdapterType.Pass))
    (he : strContains e "connection refused" = false)
    (h1 : st.failedTimes ≠ 0)
    (hw : now - st.failedTime > failedTimeoutInterval) :
    onDialFailed ps st k e now = ({ st with failedTimes := 0 }, false) := by
  simp [onDialFailed, hk, he, h1, hw]

theorem onDialFailed_sweep (ps : List Provider) (st : FState) (k : AdapterType)
    (e : String) (now : Int)
    (hk : ¬(k = AdapterType.Direct ∨ k = AdapterType.Compatible ∨
        k = AdapterType.Reject ∨ k = AdapterType.Pass))
    (he : strContains e "connection refused" = false)
    (h1 : st.failedTimes ≠ 0)
    (hw : now - st.failedTime ≤ failedTimeoutInterval)
    (hge : st.failedTimes + 1 ≥ maxFailedTimes)
    (ht : st.failedTesting = false) :
    onDialFailed ps st k e now =
      ({ st with failedTimes := 0, failedTesting := false }, true) := by
  have hw' : ¬(now - st.failedTime > failedTimeoutInterval) := not_lt.2 hw
  simp [onDialFailed, healthCheck, healthCheckEnter, healthCheckExit, hk, he, h1,
    hw', hge, ht]

theorem insertAL_ne_nil (l : List (String × Nat)) (k : String) (v : Nat) :
    insertAL l k v ≠ [] := by
  cases l with
  | nil => simp [insertAL]
  | cons a rest =>
    obtain ⟨k1, v1⟩ := a
    by_cases h : k1 = k <;> simp [insertAL, h]

theorem collectDelays_ne_nil (probe : Proxy → Option Nat) :
    ∀ (ps : List Proxy) (acc : List (String × Nat)),
      acc ≠ [] → collectDelays probe acc ps ≠ [] := by
  intro ps
  induction ps with
  | nil => intro acc h; exact h
  | cons p rest ih =>
    intro acc h
    cases hp : probe p with
    | some d =>
      simp only [collectDelays, hp]
      exact ih _ (insertAL_ne_nil acc p.name d)
    | none =>
      simp only [collectDelays, hp]
      exact ih acc h

theorem collectDelays_eq_nil_iff (probe : Proxy → Option Nat) :
    ∀ (ps : List Proxy) (acc : List (String × Nat)),
      (collectDelays probe acc ps = [] ↔ acc = [] ∧ ∀ p ∈ ps, probe p = none) := by
  intro ps
  induction ps with
  | nil => intro acc; simp [collectDelays]
  | cons p rest ih =>
    intro acc
    cases hp : probe p with
    | some d =>
      simp only [collectDelays, hp]
      constructor
      · intro h
        exact absurd h (collectDelays_ne_nil probe rest _ (insertAL_ne_nil acc p.name d))
      · rintro ⟨-, hall⟩
        have := hall p (List.mem_cons_self _ _)
        rw [hp] at this
        exact absurd this (by simp)
    | none =>
      simp only [collectDelays, hp, ih]
      constructor
      · rintro ⟨ha, hall⟩
        refine ⟨ha, ?_⟩
        intro q hq
        rcases List.mem_cons.1 hq with rfl | hq'
        · exact hp
        · exact hall q hq'
      · rintro ⟨ha, hall⟩
        exact ⟨ha, fun q hq => hall q (List.mem_cons_of_mem _ hq)⟩

theorem insertAL_keys (k : String) (v : Nat) :
    ∀ (l : List (String × Nat)),
      keysAL (insertAL l k v) =
        if k ∈ keysAL l then keysAL l else keysAL l ++ [k] := by
  intro l
  induction l with
  | nil => simp [insertAL, keysAL]
  | cons a rest ih =>
    obtain ⟨k1, v1⟩ := a
    by_cases h : k1 = k
    · subst h
      simp [insertAL, keysAL]
    · have hne : ¬(k = k1) := fun hk => h hk.symm
      simp only [insertAL, h, if_false, keysAL, List.map_cons, List.mem_cons, hne,
        false_or] at ih ⊢
      rw [ih]
      by_cases hm : k ∈ List.map Prod.fst rest
      · rw [if_pos hm, if_pos hm]
      · rw [if_neg hm, if_neg hm]
        simp

theorem memStr_push (A : List String) (x s : String) :
    memStr (A ++ [x]) s = memStr (x :: A) s := by
  rw [Bool.eq_iff_iff, memStr_iff, memStr_iff]
  simp [List.mem_append, Or.comm]

theorem dedupStr_congr :
    ∀ (l s0 s1 : List String), (∀ s ∈ l, memStr s0 s = memStr s1 s) →
      dedupStr s0 l = dedupStr s1 l := by
  intro l
  induction l with
  | nil => intro s0 s1 _; rfl
  | cons s rest ih =>
    intro s0 s1 h
    have hs := h s (List.mem_cons_self _ _)
    have hrest : ∀ q ∈ rest, memStr s0 q = memStr s1 q :=
      fun q hq => h q (List.mem_cons_of_mem _ hq)
    by_cases hm : memStr s1 s = true
    · simp only [dedupStr, hs, hm, if_true]
      exact ih s0 s1 hrest
    · have hm' : memStr s1 s = false := bool_eq_false hm
      simp only [dedupStr, hs, hm', Bool.false_eq_true, if_false]
      congr 1
      apply ih
      intro q hq
      simp [memStr, hrest q hq]

theorem succNames_cons_some (probe : Proxy → Option Nat) (p : Proxy)
    (rest : List Proxy) (d : Nat) (hp : probe p = some d) :
    succNames probe (p :: rest) = p.name :: succNames probe rest := by
  simp [succNames, List.filter_cons, hp]

theorem succNames_cons_none (probe : Proxy → Option Nat) (p : Proxy)
    (rest : List Proxy) (hp : probe p = none) :
    succNames probe (p :: rest) = succNames probe rest := by
  simp [succNames, List.filter_cons, hp]

theorem collectDelays_keys (probe : Proxy → Option Nat) :
    ∀ (ps : List Proxy) (acc : List (String × Nat)),
      keysAL (collectDelays probe acc ps) =
        keysAL acc ++ dedupStr (keysAL acc) (succNames probe ps) := by
  intro ps
  induction ps with
  | nil => intro acc; simp [collectDelays, succNames, dedupStr]
  | cons p rest ih =>
    intro acc
    cases hp : probe p with
    | none =>
      simp only [collectDelays, hp]
      rw [ih acc, succNames_cons_none probe p rest hp]
    | some d =>
      simp only [collectDelays, hp]
      rw [ih (insertAL acc p.name d), succNames_cons_some probe p rest d hp,
        insertAL_keys p.name d acc]
      by_cases hm : p.name ∈ keysAL acc
      · have hms : memStr (keysAL acc) p.name = true := (memStr_iff _ _).2 hm
        rw [if_pos hm]
        simp only [dedupStr, hms, if_true]
      · have hms : memStr (keysAL acc) p.name = false :=
          bool_eq_false (fun h => hm ((memStr_iff _ _).1 h))
        rw [if_neg hm]
        simp only [dedupStr, hms, Bool.false_eq_true, if_false]
        rw [List.append_assoc]
        congr 1
        rw [List.singleton_append]
        congr 1
        apply dedupStr_congr
        intro s _
        exact memStr_push (keysAL acc) p.name s

theorem insertAL_mem (k : String) (v : Nat) :
    ∀ (l : List (String × Nat)) (e : String × Nat),
      e ∈ insertAL l k v → e ∈ l ∨ e = (k, v) := by
  intro l
  induction l with
  | nil =>
    intro e he
    simp [insertAL] at he
    exact Or.inr he
  | cons a rest ih =>
    obtain ⟨k1, v1⟩ := a
    intro e he
    by_cases h : k1 = k
    · simp only [insertAL, h, if_true] at he
      rcases List.mem_cons.1 he with rfl | he'
      · exact Or.inr rfl
      · exact Or.inl (List.mem_cons_of_mem _ he')
    · simp only [insertAL, h, if_false] at he
      rcases List.mem_cons.1 he with rfl | he'
      · exact Or.inl (List.mem_cons_self _ _)
      · rcases ih e he' with h' | h'
        · exact Or.inl (List.mem_cons_of_mem _ h')
        · exact Or.inr h'

theorem collectDelays_mem (probe : Proxy → Option Nat) :
    ∀ (ps : List Proxy) (acc : List (String × Nat)) (e : String × Nat),
      e ∈ collectDelays probe acc ps →
        e ∈ acc ∨ ∃ p ∈ ps, p.name = e.1 ∧ probe p = some e.2 := by
  intro ps
  induction ps with
  | nil => intro acc e he; exact Or.inl he
  | cons p rest ih =>
    intro acc e he
    cases hp : probe p with
    | none =>
      simp only [collectDelays, hp] at he
      rcases ih acc e he with h | ⟨q, hq, hqe⟩
      · exact Or.inl h
      · exact Or.inr ⟨q, List.mem_cons_of_mem _ hq, hqe⟩
    | some d =>
      simp only [collectDelays, hp] at he
      rcases ih _ e he with h | ⟨q, hq, hqe⟩
      · rcases insertAL_mem p.name d acc e h with h' | rfl
        · exact Or.inl h'
        · exact Or.inr ⟨p, List.mem_cons_self _ _, rfl, hp⟩
      · exact Or.inr ⟨q, List.mem_cons_of_mem _ hq, hqe⟩

end Lemmas

section Claims

/-- C1: the claim that no backend name ever appears twice in a `GetProxies`
result is refuted by a concrete group with two providers sharing the name
"x" and a single configured filter: the cross-provider pass does not run
and "x" is returned twice. -/
theorem c1_counterexample :
    ¬(((getProxies gbC1 fbC).1.map Proxy.name).Nodup) := by
  decide

/-- C1 (amended): whenever more than one provider and more than one filter
pattern are configured — the only configurations in which the cross-provider
de-duplication pass of `GetProxies` runs — no backend name appears more than
once in the returned sequence; with at most one provider or at most one
filter the code performs no cross-provider de-duplication and a name can
appear twice. -/
theorem c1_amended_thm (gb : GroupBase) (fallback : Proxy)
    (hp : gb.providers.length > 1) (hfl : gb.filterRegs.length > 1) :
    ((getProxies gb fallback).1.map Proxy.name).Nodup := by
  have hf : gb.filterRegs ≠ [] := by
    intro h
    rw [h] at hfl
    simp at hfl
  rw [getProxies_of_filters gb fallback hf]
  by_cases he : ((updateSlots gb).map Prod.snd).flatten = []
  · rw [getProxiesFiltered_empty gb fallback he]
    simp
  · rw [getProxiesFiltered_cross gb fallback he ⟨hp, hfl⟩]
    exact crossDedup_nodup _ _

/-- C1 witness: the amended statement evaluated on the two-provider
two-filter group. -/
theorem c1_witness :
    (((getProxies gbC3 fbC).1.map Proxy.name)).Nodup :=
  c1_amended_thm gbC3 fbC (by decide) (by decide)

/-- C2: the claim that with at least one filter every returned backend name
matches a configured pattern (and that with one filter and one provider
unmatched backends are absent) is refuted by a Compatible passthrough
provider: its backend "y" matches no pattern yet is returned. -/
theorem c2_counterexample :
    ¬(∀ p ∈ (getProxies gbC2 fbC).1, matchesAny gbC2.filterRegs p.name = true) := by
  decide

/-- C2 (amended): for a group with at least one configured filter, in which
no provider has the Compatible passthrough vehicle kind and every cached
slot holds only matching backends (as every slot the code itself computes
does), every backend name returned by `GetProxies` matches at least one
configured pattern, unless the empty-resolution fallback singleton is
returned. -/
theorem c2_amended_thm (gb : GroupBase) (fallback : Proxy)
    (hf : gb.filterRegs ≠ [])
    (hnc : ∀ pd ∈ gb.providers, pd.vehicleType ≠ VehicleType.Compatible)
    (hcache : ∀ l ∈ gb.proxies, ∀ p ∈ l, matchesAny gb.filterRegs p.name = true) :
    (getProxies gb fallback).1 = [fallback] ∨
      ∀ p ∈ (getProxies gb fallback).1, matchesAny gb.filterRegs p.name = true := by
  rw [getProxies_of_filters gb fallback hf]
  have hjoin := updateSlots_matches gb hnc hcache
  by_cases he : ((updateSlots gb).map Prod.snd).flatten = []
  · exact Or.inl (getProxiesFiltered_empty gb fallback he)
  · right
    by_cases hc : gb.providers.length > 1 ∧ gb.filterRegs.length > 1
    · rw [getProxiesFiltered_cross gb fallback he hc]
      intro p hp
      exact hjoin p (crossDedup_subset _ _ p hp)
    · rw [getProxiesFiltered_nocross gb fallback he hc]
      exact hjoin

/-- C2 witness: the amended statement evaluated on a non-Compatible
single-provider single-filter group. -/
theorem c2_witness :
    (getProxies gbC1 fbC).1 = [fbC] ∨
      ∀ p ∈ (getProxies gbC1 fbC).1, matchesAny gbC1.filterRegs p.name = true :=
  c2_amended_thm gbC1 fbC (List.cons_ne_nil _ _) (by decide) (by decide)

/-- C3: the cross-provider de-duplication pass runs exactly when more than
one provider and more than one filter are configured, and when it runs the
result is, in this order: the backends matching each filter in filter
declaration order with first-seen-wins de-duplication by name, followed by
the first occurrence of every backend whose name matches no filter, in
original relative order (`crossSpec` is written from the specification's
words). -/
theorem c3_thm (gb : GroupBase) (fallback : Proxy)
    (hf : gb.filterRegs ≠ [])
    (hne : ((updateSlots gb).map Prod.snd).flatten ≠ []) :
    (getProxies gb fallback).1 =
      if gb.providers.length > 1 ∧ gb.filterRegs.length > 1 then
        crossSpec gb.filterRegs (((updateSlots gb).map Prod.snd).flatten)
      else ((updateSlots gb).map Prod.snd).flatten := by
  rw [getProxies_of_filters gb fallback hf]
  by_cases hc : gb.providers.length > 1 ∧ gb.filterRegs.length > 1
  · rw [if_pos hc, getProxiesFiltered_cross gb fallback hne hc,
      crossDedup_eq_crossSpec]
  · rw [if_neg hc, getProxiesFiltered_nocross gb fallback hne hc]

/-- C3 witness: the characterisation evaluated on the two-provider
two-filter group. -/
theorem c3_witness :
    (getProxies gbC3 fbC).1 =
      if gbC3.providers.length > 1 ∧ gbC3.filterRegs.length > 1 then
        crossSpec gbC3.filterRegs (((updateSlots gbC3).map Prod.snd).flatten)
      else ((updateSlots gbC3).map Prod.snd).flatten :=
  c3_thm gbC3 fbC (List.cons_ne_nil _ _) (by decide)

/-- C8: `GetProxies` returns exactly the fallback singleton when zero
providers are configured, or when no filters are configured and every
provider returns an empty list, or when filters are configured and every
per-provider (cache) slot is empty after refresh. -/
theorem c8_thm (gb : GroupBase) (fallback : Proxy)
    (h : gb.providers = [] ∨
        (gb.filterRegs = [] ∧ ∀ pd ∈ gb.providers, pd.proxies = []) ∨
        (gb.filterRegs ≠ [] ∧ ∀ s ∈ updateSlots gb, s.2 = [])) :
    (getProxies gb fallback).1 = [fallback] := by
  rcases h with h | ⟨hf, hall⟩ | ⟨hf, hslots⟩
  · by_cases hfe : gb.filterRegs = []
    · have hflat : (gb.providers.map Provider.proxies).flatten = [] := by
        rw [h]; rfl
      simp [getProxies, hfe, hflat]
    · rw [getProxies_of_filters gb fallback hfe]
      apply getProxiesFiltered_empty
      have hu : updateSlots gb = [] := by
        unfold updateSlots
        rw [h]
        rfl
      rw [hu]
      rfl
  · have hflat : (gb.providers.map Provider.proxies).flatten = [] := by
      rw [List.flatten_eq_nil_iff]
      intro l hl
      rcases List.mem_map.1 hl with ⟨pd, hpd, rfl⟩
      exact hall pd hpd
    simp [getProxies, hf, hflat]
  · rw [getProxies_of_filters gb fallback hf]
    apply getProxiesFiltered_empty
    rw [List.flatten_eq_nil_iff]
    intro l hl
    rcases List.mem_map.1 hl with ⟨s, hs, rfl⟩
    exact hslots s hs

/-- C8 witness: a group with zero providers resolves to the fallback
singleton. -/
theorem c8_witness : (getProxies gbC8 fbC).1 = [fbC] :=
  c8_thm gbC8 fbC (Or.inl rfl)

/-- C10: with filters configured, a Compatible (passthrough) provider's
cache slot is always overwritten with the provider's raw backend list, no
filter applied, and such backends can appear in the result even when their
names match no configured pattern (witnessed by backend "y" of `gbC10`). -/
theorem c10_thm :
    (∀ (fs : List Filter) (pd : Provider) (v : Nat) (cached : List Proxy),
        pd.vehicleType = VehicleType.Compatible →
          updateSlot fs pd v cached = (pd.version, pd.proxies)) ∧
    (∀ (gb : GroupBase) (fallback : Proxy), gb.filterRegs ≠ [] →
        (getProxies gb fallback).2.proxies = (updateSlots gb).map Prod.snd) ∧
    Proxy.mk "y" ∈ (getProxies gbC10 fbC).1 ∧
    matchesAny gbC10.filterRegs "y" = false := by
  refine ⟨?_, ?_, ?_, ?_⟩
  · intro fs pd v cached h
    simp [updateSlot, h]
  · intro gb fallback hf
    rw [getProxies_of_filters gb fallback hf, getProxiesFiltered_state]
  · decide
  · decide

/-- C10 witness: the Compatible overwrite evaluated on a concrete slot. -/
theorem c10_witness :
    updateSlot [] ⟨VehicleType.Compatible, 3, [⟨"z"⟩]⟩ 0 [] = (3, [⟨"z"⟩]) :=
  c10_thm.1 [] ⟨VehicleType.Compatible, 3, [⟨"z"⟩]⟩ 0 [] rfl

/-- C4: with threshold 5 and a 5000 ms window, five routable
non-connection-refused failures all within 4000 ms of the first, starting
from a clean tracker, run exactly one health-check sweep; the concrete
schedule of five failures evenly spread over 10000 ms runs zero sweeps, the
counter being reset to zero at the fourth call (the first one arriving more
than 5000 ms after the recorded first-failure time). -/
theorem c4_thm :
    (∀ (ps : List Provider) (f0 t1 t2 t3 t4 t5 : Int) (k : AdapterType) (e : String),
        ¬(k = AdapterType.Direct ∨ k = AdapterType.Compatible ∨
            k = AdapterType.Reject ∨ k = AdapterType.Pass) →
        strContains e "connection refused" = false →
        t2 - t1 ≤ 4000 → t3 - t1 ≤ 4000 → t4 - t1 ≤ 4000 → t5 - t1 ≤ 4000 →
        (runCalls ps ⟨0, f0, false⟩
            [(k, e, t1), (k, e, t2), (k, e, t3), (k, e, t4), (k, e, t5)]).2 = 1) ∧
    (runCalls [] ⟨0, 0, false⟩ sched10).2 = 0 ∧
    (runCalls [] ⟨0, 0, false⟩ (sched10.take 3)).1.failedTimes = 3 ∧
    (runCalls [] ⟨0, 0, false⟩ (sched10.take 4)).1.failedTimes = 0 := by
  refine ⟨?_, by decide, by decide, by decide⟩
  intro ps f0 t1 t2 t3 t4 t5 k e hk he h2 h3 h4 h5
  have e1 : onDialFailed ps ⟨0, f0, false⟩ k e t1 = (⟨1, t1, false⟩, false) :=
    onDialFailed_first ps ⟨0, f0, false⟩ k e t1 hk he rfl
  have e2 : onDialFailed ps ⟨1, t1, false⟩ k e t2 = (⟨2, t1, false⟩, false) :=
    onDialFailed_acc ps ⟨1, t1, false⟩ k e t2 hk he (show (1 : Nat) ≠ 0 by decide)
      (by simp only [failedTimeoutInterval]; omega)
      (show (1 : Nat) + 1 < maxFailedTimes by decide)
  have e3 : onDialFailed ps ⟨2, t1, false⟩ k e t3 = (⟨3, t1, false⟩, false) :=
    onDialFailed_acc ps ⟨2, t1, false⟩ k e t3 hk he (show (2 : Nat) ≠ 0 by decide)
      (by simp only [failedTimeoutInterval]; omega)
      (show (2 : Nat) + 1 < maxFailedTimes by decide)
  have e4 : onDialFailed ps ⟨3, t1, false⟩ k e t4 = (⟨4, t1, false⟩, false) :=
    onDialFailed_acc ps ⟨3, t1, false⟩ k e t4 hk he (show (3 : Nat) ≠ 0 by decide)
      (by simp only [failedTimeoutInterval]; omega)
      (show (3 : Nat) + 1 < maxFailedTimes by decide)
  have e5 : onDialFailed ps ⟨4, t1, false⟩ k e t5 = (⟨0, t1, false⟩, true) :=
    onDialFailed_sweep ps ⟨4, t1, false⟩ k e t5 hk he (show (4 : Nat) ≠ 0 by decide)
      (by simp only [failedTimeoutInterval]; omega)
      (show (4 : Nat) + 1 ≥ maxFailedTimes by decide) rfl
  simp [runCalls, e1, e2, e3, e4, e5]

/-- C4 witness: the within-window escalation evaluated on the concrete
schedule 0, 1000, 2000, 3000, 4000 ms. -/
theorem c4_witness :
    (runCalls [] ⟨0, 0, false⟩
        [(AdapterType.Shadowsocks, "dial timeout", 0),
         (AdapterType.Shadowsocks, "dial timeout", 1000),
         (AdapterType.Shadowsocks, "dial timeout", 2000),
         (AdapterType.Shadowsocks, "dial timeout", 3000),
         (AdapterType.Shadowsocks, "dial timeout", 4000)]).2 = 1 :=
  c4_thm.1 [] 0 0 1000 2000 3000 4000 AdapterType.Shadowsocks "dial timeout"
    (by decide) (by decide) (by decide) (by decide) (by decide) (by decide)

/-- C5: the claim that a connection-refused failure leaves `failedTimes`
unchanged is refuted: when no sweep is in flight the triggered sweep resets
the counter, here from 3 to 0. -/
theorem c5_counterexample :
    (onDialFailed [] ⟨3, 0, false⟩ AdapterType.Shadowsocks
        "connect: connection refused" 0).1.failedTimes ≠ 3 := by
  decide

/-- C5 (amended): a routable connection-refused dial failure invokes
`healthCheck` immediately, whatever the current `failedTimes`; the counter
is never incremented — it is left unchanged when a sweep is already in
flight (the invocation returns at the single-flight gate), and reset to
zero by the completed sweep otherwise. -/
theorem c5_amended_thm (ps : List Provider) (st : FState) (k : AdapterType)
    (e : String) (now : Int)
    (hk : ¬(k = AdapterType.Direct ∨ k = AdapterType.Compatible ∨
        k = AdapterType.Reject ∨ k = AdapterType.Pass))
    (he : strContains e "connection refused" = true) :
    onDialFailed ps st k e now = ((healthCheck ps st).1, (healthCheck ps st).2.1) ∧
    (st.failedTesting = true → onDialFailed ps st k e now = (st, false)) ∧
    (st.failedTesting = false →
      onDialFailed ps st k e now =
        ({ st with failedTimes := 0, failedTesting := false }, true)) ∧
    (onDialFailed ps st k e now).1.failedTimes ≤ st.failedTimes := by
  have h0 : onDialFailed ps st k e now =
      ((healthCheck ps st).1, (healthCheck ps st).2.1) := by
    simp [onDialFailed, hk, he]
  refine ⟨h0, ?_, ?_, ?_⟩
  · intro ht
    rw [h0]
    simp [healthCheck, healthCheckEnter, ht]
  · intro ht
    rw [h0]
    simp [healthCheck, healthCheckEnter, healthCheckExit, ht]
  · rw [h0]
    by_cases ht : st.failedTesting = true
    · simp [healthCheck, healthCheckEnter, ht]
    · simp [healthCheck, healthCheckEnter, healthCheckExit, bool_eq_false ht]

/-- C5 witness: the amended statement evaluated at a counter of 3 with no
sweep in flight. -/
theorem c5_witness :
    onDialFailed [] ⟨3, 7, false⟩ AdapterType.Vmess "connection refused" 0 =
      (⟨0, 7, false⟩, true) :=
  (c5_amended_thm [] ⟨3, 7, false⟩ AdapterType.Vmess "connection refused" 0
    (by decide) (by decide)).2.2.1 rfl

/-- C7: if `failedTesting` is set, `healthCheck` returns at once, invoking
no provider and changing nothing; otherwise it sets the flag on entry,
invokes every provider's health check, and on exit clears the flag and
resets the failure counter to zero. -/
theorem c7_thm (ps : List Provider) (st : FState) :
    (st.failedTesting = true →
      healthCheck ps st = (st, false, []) ∧ healthCheckEnter st = none) ∧
    (st.failedTesting = false →
      healthCheckEnter st = some { st with failedTesting := true } ∧
      healthCheck ps st = ({ st with failedTimes := 0, failedTesting := false }, true, ps)) := by
  constructor
  · intro ht
    constructor <;> simp [healthCheck, healthCheckEnter, ht]
  · intro ht
    constructor <;> simp [healthCheck, healthCheckEnter, healthCheckExit, ht]

/-- C7 witness: the sweep evaluated from an idle state with one provider. -/
theorem c7_witness :
    healthCheckEnter ⟨2, 0, false⟩ = some ⟨2, 0, true⟩ ∧
    healthCheck [⟨VehicleType.File, 1, []⟩] ⟨2, 0, false⟩ =
      (⟨0, 0, false⟩, true, [⟨VehicleType.File, 1, []⟩]) :=
  (c7_thm [⟨VehicleType.File, 1, []⟩] ⟨2, 0, false⟩).2 rfl

/-- C9: `onDialSuccess` resets `failedTimes` to zero exactly when no
health-check sweep is in flight, and leaves the state unchanged when one
is. -/
theorem c9_thm (st : FState) :
    (st.failedTesting = false → onDialSuccess st = { st with failedTimes := 0 }) ∧
    (st.failedTesting = true → onDialSuccess st = st) := by
  constructor
  · intro ht
    simp [onDialSuccess, ht]
  · intro ht
    simp [onDialSuccess, ht]

/-- C9 witness: the reset evaluated at a counter of 4 with no sweep in
flight. -/
theorem c9_witness : onDialSuccess ⟨4, 9, false⟩ = ⟨0, 9, false⟩ :=
  (c9_thm ⟨4, 9, false⟩).1 rfl

/-- C6: the claim that the returned mapping has one entry per backend whose
probe succeeded is refuted when two resolved backends share a name: both
probes of the two "x" backends succeed, yet the map holds a single entry. -/
theorem c6_counterexample :
    urlTest gbC6 fbC (fun _ => some 10) = Except.ok [("x", 10)] ∧
    (getProxies gbC6 fbC).1.length = 2 ∧
    ([("x", (10 : Nat))].length ≠ (getProxies gbC6 fbC).1.length) := by
  refine ⟨rfl, rfl, by decide⟩

/-- C6 (amended): `URLTest` reports the all-proxies-timeout error exactly
when no resolved backend's probe succeeded; on success the returned map has
one entry per distinct backend name with a successful probe (first-success
insertion order, later same-name successes overwriting the value), each
entry's value coming from a successful probe of a resolved backend of that
name. -/
theorem c6_amended_thm (gb : GroupBase) (fallback : Proxy)
    (probe : Proxy → Option Nat) :
    (urlTest gb fallback probe = Except.error "get delay: all proxies timeout" ↔
      ∀ p ∈ (getProxies gb fallback).1, probe p = none) ∧
    ∀ m, urlTest gb fallback probe = Except.ok m →
      keysAL m = dedupStr [] (succNames probe (getProxies gb fallback).1) ∧
      ∀ kv ∈ m, ∃ p ∈ (getProxies gb fallback).1,
        p.name = kv.1 ∧ probe p = some kv.2 := by
  by_cases hmp : collectDelays probe [] (getProxies gb fallback).1 = []
  · have hurl : urlTest gb fallback probe =
        Except.error "get delay: all proxies timeout" := by
      simp [urlTest, hmp]
    refine ⟨?_, ?_⟩
    · rw [hurl]
      constructor
      · intro _
        exact ((collectDelays_eq_nil_iff probe (getProxies gb fallback).1 []).1 hmp).2
      · intro _
        rfl
    · intro m hm
      rw [hurl] at hm
      exact absurd hm (by simp)
  · have hne : (collectDelays probe [] (getProxies gb fallback).1).isEmpty = false :=
      isEmpty_false_of_ne_nil hmp
    have hurl : urlTest gb fallback probe =
        Except.ok (collectDelays probe [] (getProxies gb fallback).1) := by
      simp [urlTest, hne]
    refine ⟨?_, ?_⟩
    · rw [hurl]
      constructor
      · intro h
        exact absurd h (by simp)
      · intro hall
        exact absurd ((collectDelays_eq_nil_iff probe _ []).2 ⟨rfl, hall⟩) hmp
    · intro m hm
      rw [hurl] at hm
      injection hm with hm'
      subst hm'
      constructor
      · have hk := collectDelays_keys probe (getProxies gb fallback).1 []
        simpa [keysAL] using hk
      · intro kv hkv
        rcases collectDelays_mem probe (getProxies gb fallback).1 [] kv hkv with h | h
        · simp at h
        · exact h

/-- C6 witness: the error condition evaluated on a group resolving to the
fallback singleton whose probe fails. -/
theorem c6_witness :
    urlTest gbC8 fbC (fun _ => none) = Except.error "get delay: all proxies timeout" :=
  (c6_amended_thm gbC8 fbC (fun _ => none)).1.mpr (by decide)

end Claims

end Clash
